import Mathlib

/-!
# Verification of the conflict-monitoring dashboard's data pipeline

This development embeds the data pipeline of `dashboard.py` in Lean:

* `load_data`             — CSV load, timestamp parse with coercion to a null
                            marker, the `Conflict Escalation == True` filter,
                            `sort_values('Pub_Date')` followed by
                            `drop_duplicates(subset='News_Title', keep='last')`,
                            and truncation of timestamps to calendar dates;
* `prepare_choropleth_data` — the inclusive date-range filter and the
                            `value_counts` aggregation over
                            `'Countries Mentioned'.fillna('Unknown')`;
* `country_news`          — the case-insensitive substring mask
                            `str.contains(country, case=False, na=False)`
                            conjoined with the date-range mask;
* `total_pages`/`paginate` — the arithmetic pagination of the news table.

Modelling conventions:

* Timestamps are `Option Nat` (seconds); `none` is pandas' `NaT`, the result of
  `pd.to_datetime(..., errors='coerce')` on an unparseable cell.  Calendar-date
  truncation (`.dt.date`) is division by 86400.
* `sort_values` is modelled by a deterministic stable insertion sort whose
  comparison places `NaT` after every valid timestamp, matching pandas'
  `na_position='last'` default.
* A data frame is a list of rows together with column-presence flags; pandas
  raises `KeyError` when an absent column is accessed and the aggregator raises
  `ValueError` when `'Countries Mentioned'` is absent, modelled by `PdError`.
* `str.contains(..., case=False, na=False)` is modelled as case-insensitive
  substring containment over ASCII lowercasing (regex metacharacters are
  outside the model's scope; country names contain none), with missing
  fields matching nothing.
-/

/-- A row of the CSV after `pd.read_csv` and `pd.to_datetime(errors='coerce')`:
`pubDate = none` models `NaT` (an unparseable timestamp), and
`countriesMentioned = none` models a missing (`NaN`) country cell. -/
structure NewsRecord where
  newsTitle : String
  pubDate : Option Nat
  countriesMentioned : Option String
  url : String
  conflictEscalation : Bool
deriving DecidableEq, Repr

/-- The raw CSV table: its rows plus presence flags for the five columns the
dashboard reads (`Pub_Date`, `News_Title`, `Countries Mentioned`, `URL`,
`Conflict Escalation`). -/
structure CsvTable where
  hasPubDate : Bool
  hasNewsTitle : Bool
  hasCountries : Bool
  hasURL : Bool
  hasEscalation : Bool
  rows : List NewsRecord
deriving DecidableEq, Repr

/-- Errors pandas raises in the pipeline: `KeyError` on access to an absent
column, and the explicit `ValueError` of `prepare_choropleth_data`. -/
inductive PdError where
  | keyError : String → PdError
  | valueError : String → PdError
deriving DecidableEq, Repr

/-- The data frame returned by `load_data`: processed rows, still carrying the
presence flags of the columns `load_data` itself never touches. -/
structure LoadedData where
  hasCountries : Bool
  hasURL : Bool
  rows : List NewsRecord
deriving DecidableEq, Repr

/-- pandas' ordering on timestamps with `NaT` sorted last
(`sort_values` default `na_position='last'`). -/
def pubDateLe : Option Nat → Option Nat → Bool
  | _, none => true
  | none, some _ => false
  | some a, some b => a ≤ b

/-- Row comparison used by `sort_values('Pub_Date')`. -/
def rowLe (r q : NewsRecord) : Bool := pubDateLe r.pubDate q.pubDate

/-- Stable insertion of `x` into `l`: `x` goes before the first element it
compares `le` to, so earlier input stays first among ties. -/
def insLe (le : α → α → Bool) (x : α) : List α → List α
  | [] => [x]
  | y :: ys => if le x y then x :: y :: ys else y :: insLe le x ys

/-- Stable insertion sort (the deterministic model of `sort_values`). -/
def isort (le : α → α → Bool) : List α → List α
  | [] => []
  | x :: xs => insLe le x (isort le xs)

/-- `drop_duplicates(subset='News_Title', keep='last')`: a row survives iff no
later row bears the same title; order of survivors is preserved. -/
def dropDupLast : List NewsRecord → List NewsRecord
  | [] => []
  | r :: rs =>
    if rs.any (fun q => q.newsTitle == r.newsTitle) then dropDupLast rs
    else r :: dropDupLast rs

/-- The `data['Conflict Escalation'] == True` filter (line 28). -/
def escRows (rows : List NewsRecord) : List NewsRecord :=
  rows.filter (fun r => r.conflictEscalation == true)

/-- The escalation-filtered rows in `sort_values('Pub_Date')` order (line 31,
before deduplication). -/
def sortedFiltered (rows : List NewsRecord) : List NewsRecord :=
  isort rowLe (escRows rows)

/-- Row processing of `load_data` up to (and including) deduplication, before
the timestamps are truncated to dates. -/
def loadPipeline (rows : List NewsRecord) : List NewsRecord :=
  dropDupLast (sortedFiltered rows)

/-- `data['Pub_Date'].dt.date` (line 34): truncate the timestamp to a calendar
date; `NaT` stays `NaT`. -/
def toDateRow (r : NewsRecord) : NewsRecord :=
  { r with pubDate := r.pubDate.map (fun t => t / 86400) }

/-- `load_data` (lines 22–36).  Column accesses happen in source order:
`Pub_Date` (line 25), `Conflict Escalation` (line 28), `News_Title` (line 31);
each raises `KeyError` when its column is absent.  The `Countries Mentioned`
and `URL` columns are never touched here. -/
def load_data (t : CsvTable) : Except PdError LoadedData :=
  if !t.hasPubDate then .error (.keyError "Pub_Date")
  else if !t.hasEscalation then .error (.keyError "Conflict Escalation")
  else if !t.hasNewsTitle then .error (.keyError "News_Title")
  else .ok ⟨t.hasCountries, t.hasURL, (loadPipeline t.rows).map toDateRow⟩

/-- The inclusive date-range mask
`(Pub_Date >= lo) & (Pub_Date <= hi)` (line 40); comparisons against `NaT`
are false, so null-date rows are filtered out. -/
def dateInRange (d : Option Nat) (lo hi : Nat) : Bool :=
  match d with
  | none => false
  | some x => decide (lo ≤ x) && decide (x ≤ hi)

/-- `fillna('Unknown')` applied to the country cell of one row (line 42). -/
def countryKey (r : NewsRecord) : String :=
  r.countriesMentioned.getD "Unknown"

/-- `(xs.filter (· == v)).length`: the number of occurrences of `v`. -/
def countOcc (xs : List String) (v : String) : Nat :=
  (xs.filter (fun y => y == v)).length

/-- Distinct values of `l` in order of first appearance, skipping those
already `seen`. -/
def fsdAux (seen : List String) : List String → List String
  | [] => []
  | x :: xs =>
    if seen.contains x then fsdAux seen xs else x :: fsdAux (x :: seen) xs

/-- Distinct values in order of first appearance (the key order of a pandas
hash-table aggregation). -/
def firstSeenDistinct (l : List String) : List String := fsdAux [] l

/-- Descending-count comparison for `value_counts` output. -/
def countGe (p q : String × Nat) : Bool := decide (q.2 ≤ p.2)

/-- `Series.value_counts()` (line 42): one `(value, count)` pair per distinct
value, sorted by count descending; the stable sort keeps equal counts in
first-seen order. -/
def value_counts (xs : List String) : List (String × Nat) :=
  isort countGe ((firstSeenDistinct xs).map (fun v => (v, countOcc xs v)))

/-- `prepare_choropleth_data` (lines 39–46): inclusive date filter, then the
`'Countries Mentioned'` presence check (`ValueError` when absent), then
`fillna('Unknown').value_counts()`. -/
def prepare_choropleth_data (d : LoadedData) (dateRange : Nat × Nat) :
    Except PdError (List (String × Nat)) :=
  if d.hasCountries then
    .ok (value_counts
      ((d.rows.filter (fun r => dateInRange r.pubDate dateRange.1 dateRange.2)).map
        countryKey))
  else .error (.valueError "'Countries Mentioned' column not found in the dataset")

/-- `leadChars n h`: the character list `n` starts the list `h`. -/
def leadChars : List Char → List Char → Bool
  | [], _ => true
  | _ :: _, [] => false
  | a :: as, b :: bs => a == b && leadChars as bs

/-- `subChars n h`: the character list `n` occurs contiguously inside `h`. -/
def subChars (needle : List Char) : List Char → Bool
  | [] => decide (needle = [])
  | c :: rest => leadChars needle (c :: rest) || subChars needle rest

/-- Case-insensitive substring test, the model of
`str.contains(needle, case=False)` on a present cell. -/
def strContainsCI (hay needle : String) : Bool :=
  subChars (needle.data.map Char.toLower) (hay.data.map Char.toLower)

/-- The mask of lines 125–129: `Countries Mentioned` contains the clicked
country case-insensitively (`na=False`: a missing cell never matches) and
`Pub_Date` lies in the selected range inclusive. -/
def countryMask (country : String) (lo hi : Nat) (r : NewsRecord) : Bool :=
  (match r.countriesMentioned with
   | none => false
   | some s => strContainsCI s country)
  && dateInRange r.pubDate lo hi

/-- `country_news = data[mask]` (line 130). -/
def country_news (rows : List NewsRecord) (country : String) (lo hi : Nat) :
    List NewsRecord :=
  rows.filter (countryMask country lo hi)

/-- `items_per_page = 10` (line 133). -/
def items_per_page : Nat := 10

/-- `total_pages = (len + items_per_page - 1) // items_per_page` (line 134). -/
def total_pages (n : Nat) : Nat := (n + items_per_page - 1) / items_per_page

/-- `country_news.iloc[(page-1)*10 : (page-1)*10 + 10]` (lines 138–140). -/
def paginate (l : List NewsRecord) (page : Nat) : List NewsRecord :=
  (l.drop ((page - 1) * items_per_page)).take items_per_page

/-- Well-formedness of `st.number_input("Page", min_value=1, max_value=total_pages)`
(line 137): Streamlit rejects the widget when `min_value > max_value`. -/
def pageControlOk (totalPages : Nat) : Prop := 1 ≤ totalPages

/-! ## Lemmas about the stable insertion sort -/

theorem insLe_perm (le : α → α → Bool) (x : α) (l : List α) :
    (insLe le x l).Perm (x :: l) := by
  induction l with
  | nil => exact List.Perm.refl _
  | cons y ys ih =>
    simp only [insLe]
    split
    · exact List.Perm.refl _
    · exact (ih.cons y).trans (List.Perm.swap x y ys)

theorem isort_perm (le : α → α → Bool) (l : List α) : (isort le l).Perm l := by
  induction l with
  | nil => exact List.Perm.refl _
  | cons x xs ih =>
    exact (insLe_perm le x (isort le xs)).trans (ih.cons x)

theorem mem_isort (le : α → α → Bool) (l : List α) (a : α) :
    a ∈ isort le l ↔ a ∈ l := (isort_perm le l).mem_iff

theorem pairwise_insLe (le : α → α → Bool)
    (htot : ∀ a b, le a b = true ∨ le b a = true)
    (htrans : ∀ a b c, le a b = true → le b c = true → le a c = true)
    (x : α) (l : List α) (hl : l.Pairwise (fun a b => le a b = true)) :
    (insLe le x l).Pairwise (fun a b => le a b = true) := by
  induction l with
  | nil => simp [insLe]
  | cons y ys ih =>
    simp only [insLe]
    rcases List.pairwise_cons.mp hl with ⟨hy, hys⟩
    split
    · rename_i hxy
      refine List.pairwise_cons.mpr ⟨?_, hl⟩
      intro b hb
      rcases List.mem_cons.mp hb with rfl | hb
      · exact hxy
      · exact htrans x y b hxy (hy _ hb)
    · rename_i hxy
      have hyx : le y x = true := (htot x y).resolve_left hxy
      refine List.pairwise_cons.mpr ⟨?_, ih hys⟩
      intro b hb
      rcases List.mem_cons.mp ((insLe_perm le x ys).mem_iff.mp hb) with rfl | h
      · exact hyx
      · exact hy _ h

theorem pairwise_isort (le : α → α → Bool)
    (htot : ∀ a b, le a b = true ∨ le b a = true)
    (htrans : ∀ a b c, le a b = true → le b c = true → le a c = true)
    (l : List α) : (isort le l).Pairwise (fun a b => le a b = true) := by
  induction l with
  | nil => simp [isort]
  | cons x xs ih => exact pairwise_insLe le htot htrans x (isort le xs) ih

/-- Stability of the sort by descending count: the subsequence of pairs with a
fixed count value is untouched by inserting one pair. -/
theorem filter_insLe_countGe (x : String × Nat) (l : List (String × Nat)) (c : Nat) :
    (insLe countGe x l).filter (fun p => p.2 == c) =
      ((x :: l).filter (fun p => p.2 == c)) := by
  induction l with
  | nil => simp [insLe]
  | cons y ys ih =>
    simp only [insLe]
    split
    · rfl
    · rename_i hxy
      have hlt : x.2 < y.2 := by
        have : ¬ (y.2 ≤ x.2) := by
          simpa [countGe] using hxy
        omega
      by_cases hy : y.2 = c
      · have hx : ¬ (x.2 = c) := by omega
        simp only [List.filter_cons]
        simp only [beq_iff_eq, hy, hx, if_pos, if_neg, ih]
        simp [List.filter_cons, hx]
      · simp only [List.filter_cons]
        simp only [beq_iff_eq, hy, if_neg, ih]
        simp [List.filter_cons, hy]

theorem filter_isort_countGe (l : List (String × Nat)) (c : Nat) :
    (isort countGe l).filter (fun p => p.2 == c) =
      l.filter (fun p => p.2 == c) := by
  induction l with
  | nil => rfl
  | cons x xs ih =>
    simp only [isort]
    rw [filter_insLe_countGe]
    simp only [List.filter_cons]
    split
    · rw [ih]
    · exact ih

/-! ## Lemmas about deduplication (`dropDupLast`) -/

theorem mem_of_mem_dropDupLast {q : NewsRecord} {l : List NewsRecord}
    (h : q ∈ dropDupLast l) : q ∈ l := by
  induction l with
  | nil => simp [dropDupLast] at h
  | cons r rs ih =>
    simp only [dropDupLast] at h
    split at h
    · exact List.mem_cons_of_mem r (ih h)
    · rcases List.mem_cons.mp h with rfl | h
      · exact List.mem_cons_self _ _
      · exact List.mem_cons_of_mem r (ih h)

/-- A surviving row is the last of its title: the list splits around it with no
same-title row afterwards. -/
theorem dropDupLast_split {q : NewsRecord} {l : List NewsRecord}
    (h : q ∈ dropDupLast l) :
    ∃ pre suf, l = pre ++ q :: suf ∧ ∀ r ∈ suf, r.newsTitle ≠ q.newsTitle := by
  induction l with
  | nil => simp [dropDupLast] at h
  | cons r rs ih =>
    simp only [dropDupLast] at h
    split at h
    · rcases ih h with ⟨pre, suf, heq, hsuf⟩
      exact ⟨r :: pre, suf, by simp [heq], hsuf⟩
    · rename_i hany
      rcases List.mem_cons.mp h with rfl | h
      · refine ⟨[], rs, rfl, ?_⟩
        intro s hs hts
        exact hany (List.any_eq_true.mpr ⟨s, hs, by simp [hts]⟩)
      · rcases ih h with ⟨pre, suf, heq, hsuf⟩
        exact ⟨r :: pre, suf, by simp [heq], hsuf⟩

theorem nodup_titles_dropDupLast (l : List NewsRecord) :
    ((dropDupLast l).map (fun r => r.newsTitle)).Nodup := by
  induction l with
  | nil => simp [dropDupLast]
  | cons r rs ih =>
    simp only [dropDupLast]
    split
    · exact ih
    · rename_i hany
      refine List.nodup_cons.mpr ⟨?_, ih⟩
      intro hmem
      rcases List.mem_map.mp hmem with ⟨s, hs, hts⟩
      exact hany (List.any_eq_true.mpr
        ⟨s, mem_of_mem_dropDupLast hs, by simp [hts]⟩)

theorem title_mem_dropDupLast {l : List NewsRecord} {t : String} :
    t ∈ (dropDupLast l).map (fun r => r.newsTitle) ↔
      t ∈ l.map (fun r => r.newsTitle) := by
  induction l with
  | nil => simp [dropDupLast]
  | cons r rs ih =>
    simp only [dropDupLast]
    split
    · rename_i hany
      rw [ih]
      simp only [List.map_cons, List.mem_cons]
      constructor
      · exact Or.inr
      · rintro (rfl | h)
        · rcases List.any_eq_true.mp hany with ⟨s, hs, hts⟩
          exact List.mem_map.mpr ⟨s, hs, by simpa using hts.symm⟩
        · exact h
    · simp only [List.map_cons, List.mem_cons, ih]

/-! ## Lemmas about first-seen distinct values and occurrence counts -/


theorem contains_iff_mem (l : List String) (a : String) :
    l.contains a = true ↔ a ∈ l := List.elem_iff

theorem mem_fsdAux {a : String} : ∀ (l seen : List String),
    a ∈ fsdAux seen l ↔ a ∈ l ∧ a ∉ seen := by
  intro l
  induction l with
  | nil => simp [fsdAux]
  | cons x xs ih =>
    intro seen
    simp only [fsdAux]
    split
    · rename_i hx
      have hxs : x ∈ seen := (contains_iff_mem _ _).mp hx
      rw [ih seen]
      simp only [List.mem_cons]
      constructor
      · rintro ⟨h1, h2⟩; exact ⟨Or.inr h1, h2⟩
      · rintro ⟨h1 | h1, h2⟩
        · exact absurd (h1 ▸ hxs) h2
        · exact ⟨h1, h2⟩
    · rename_i hx
      have hxs : x ∉ seen := fun hm => hx ((contains_iff_mem _ _).mpr hm)
      simp only [List.mem_cons, ih (x :: seen)]
      constructor
      · rintro (rfl | ⟨h1, h2⟩)
        · exact ⟨Or.inl rfl, hxs⟩
        · exact ⟨Or.inr h1, fun hm => h2 (Or.inr hm)⟩
      · rintro ⟨rfl | h1, h2⟩
        · exact Or.inl rfl
        · by_cases hax : a = x
          · exact Or.inl hax
          · exact Or.inr ⟨h1, by simp [hax, h2]⟩

theorem nodup_fsdAux : ∀ (l seen : List String), (fsdAux seen l).Nodup := by
  intro l
  induction l with
  | nil => intro seen; simp [fsdAux]
  | cons x xs ih =>
    intro seen
    simp only [fsdAux]
    split
    · exact ih seen
    · refine List.nodup_cons.mpr ⟨?_, ih (x :: seen)⟩
      intro hmem
      exact ((mem_fsdAux xs (x :: seen)).mp hmem).2 (List.mem_cons_self x seen)

theorem mem_firstSeenDistinct (l : List String) (a : String) :
    a ∈ firstSeenDistinct l ↔ a ∈ l := by
  rw [firstSeenDistinct, mem_fsdAux l []]
  simp

theorem nodup_firstSeenDistinct (l : List String) : (firstSeenDistinct l).Nodup :=
  nodup_fsdAux l []

theorem countOcc_cons_self (y : String) (ys : List String) :
    countOcc (y :: ys) y = countOcc ys y + 1 := by
  simp [countOcc, List.filter_cons]

theorem countOcc_cons_ne {y v : String} (h : y ≠ v) (ys : List String) :
    countOcc (y :: ys) v = countOcc ys v := by
  simp [countOcc, List.filter_cons, h]

theorem filter_nc_cons_mem (seen : List String) (y : String) (ys : List String)
    (h : y ∈ seen) :
    (y :: ys).filter (fun a => !(seen.contains a)) =
      ys.filter (fun a => !(seen.contains a)) := by
  simp [List.filter_cons, h]

theorem filter_nc_cons_nmem (seen : List String) (y : String) (ys : List String)
    (h : y ∉ seen) :
    (y :: ys).filter (fun a => !(seen.contains a)) =
      y :: ys.filter (fun a => !(seen.contains a)) := by
  simp [List.filter_cons, h]

/-- Splitting off the occurrences of one value `x` (not yet seen) from the
seen-filtered length. -/
theorem countOcc_add_filter_length (x : String) :
    ∀ (xs seen : List String), x ∉ seen →
    countOcc xs x + (xs.filter (fun a => !((x :: seen).contains a))).length =
      (xs.filter (fun a => !(seen.contains a))).length := by
  intro xs
  induction xs with
  | nil => intro seen _; simp [countOcc]
  | cons y ys ih =>
    intro seen hx
    by_cases hyx : y = x
    · subst hyx
      rw [countOcc_cons_self]
      rw [filter_nc_cons_mem (y :: seen) y ys (List.mem_cons_self _ _)]
      rw [filter_nc_cons_nmem seen y ys hx]
      have := ih seen hx
      simp only [List.length_cons]
      omega
    · rw [countOcc_cons_ne hyx]
      by_cases hys : y ∈ seen
      · rw [filter_nc_cons_mem seen y ys hys]
        rw [filter_nc_cons_mem (x :: seen) y ys (List.mem_cons_of_mem x hys)]
        exact ih seen hx
      · rw [filter_nc_cons_nmem seen y ys hys]
        have hnx : y ∉ x :: seen := by
          intro hm
          rcases List.mem_cons.mp hm with h | h
          · exact hyx h
          · exact hys h
        rw [filter_nc_cons_nmem (x :: seen) y ys hnx]
        simp only [List.length_cons]
        have := ih seen hx
        omega

/-- The counts of the first-seen distinct values of `l` (relative to `seen`)
sum to the number of elements of `l` outside `seen`. -/
theorem sum_counts_fsdAux :
    ∀ (l seen : List String),
    ((fsdAux seen l).map (fun v => countOcc l v)).sum =
      (l.filter (fun a => !(seen.contains a))).length := by
  intro l
  induction l with
  | nil => intro seen; simp [fsdAux]
  | cons x xs ih =>
    intro seen
    simp only [fsdAux]
    split
    · rename_i hx
      have hxmem : x ∈ seen := (contains_iff_mem _ _).mp hx
      have hcongr : (fsdAux seen xs).map (fun v => countOcc (x :: xs) v) =
          (fsdAux seen xs).map (fun v => countOcc xs v) := by
        refine List.map_congr_left ?_
        intro v hv
        have hvx : x ≠ v := by
          intro h
          exact ((mem_fsdAux xs seen).mp hv).2 (h ▸ hxmem)
        exact countOcc_cons_ne hvx xs
      rw [hcongr, ih seen, filter_nc_cons_mem seen x xs hxmem]
    · rename_i hx
      have hxs : x ∉ seen := fun hm => hx ((contains_iff_mem _ _).mpr hm)
      have hcongr : (fsdAux (x :: seen) xs).map (fun v => countOcc (x :: xs) v) =
          (fsdAux (x :: seen) xs).map (fun v => countOcc xs v) := by
        refine List.map_congr_left ?_
        intro v hv
        have hvx : x ≠ v := by
          intro h
          exact ((mem_fsdAux xs (x :: seen)).mp hv).2 (h ▸ List.mem_cons_self x seen)
        exact countOcc_cons_ne hvx xs
      simp only [List.map_cons, List.sum_cons, hcongr, ih (x :: seen)]
      rw [countOcc_cons_self, filter_nc_cons_nmem seen x xs hxs]
      have hsplit := countOcc_add_filter_length x xs seen hxs
      simp only [List.length_cons]
      omega

theorem filter_nc_nil (l : List String) :
    l.filter (fun a => !(([] : List String).contains a)) = l := by
  simp

/-- The counts reported by `value_counts` sum to the length of its input. -/
theorem sum_value_counts (xs : List String) :
    ((value_counts xs).map (fun p => p.2)).sum = xs.length := by
  have hperm := (isort_perm countGe
    ((firstSeenDistinct xs).map (fun v => (v, countOcc xs v)))).map
      (fun p : String × Nat => p.2)
  rw [value_counts, hperm.sum_eq, List.map_map]
  have hcomp : ((fun p : String × Nat => p.2) ∘ fun v => (v, countOcc xs v)) =
      fun v => countOcc xs v := rfl
  rw [hcomp, firstSeenDistinct, sum_counts_fsdAux xs [], filter_nc_nil]

/-! ## Lemmas about the Loader pipeline -/

theorem pubDateLe_refl (a : Option Nat) : pubDateLe a a = true := by
  cases a <;> simp [pubDateLe]

theorem pubDateLe_total (a b : Option Nat) :
    pubDateLe a b = true ∨ pubDateLe b a = true := by
  cases a with
  | none =>
    cases b with
    | none => exact Or.inl rfl
    | some b => exact Or.inr rfl
  | some a =>
    cases b with
    | none => exact Or.inl rfl
    | some b => simpa [pubDateLe] using Nat.le_total a b

theorem pubDateLe_trans (a b c : Option Nat) (h1 : pubDateLe a b = true)
    (h2 : pubDateLe b c = true) : pubDateLe a c = true := by
  cases a <;> cases b <;> cases c <;> simp_all [pubDateLe]
  omega

theorem pubDateLe_none_left {b : Option Nat} (h : pubDateLe none b = true) :
    b = none := by
  cases b
  · rfl
  · simp [pubDateLe] at h

theorem rowLe_total (a b : NewsRecord) : rowLe a b = true ∨ rowLe b a = true :=
  pubDateLe_total a.pubDate b.pubDate

theorem rowLe_trans (a b c : NewsRecord) (h1 : rowLe a b = true)
    (h2 : rowLe b c = true) : rowLe a c = true :=
  pubDateLe_trans a.pubDate b.pubDate c.pubDate h1 h2

theorem mem_escRows {r : NewsRecord} {rows : List NewsRecord} :
    r ∈ escRows rows ↔ r ∈ rows ∧ r.conflictEscalation = true := by
  simp [escRows, List.mem_filter]

theorem mem_sortedFiltered {r : NewsRecord} {rows : List NewsRecord} :
    r ∈ sortedFiltered rows ↔ r ∈ escRows rows :=
  mem_isort rowLe (escRows rows) r

theorem pairwise_sortedFiltered (rows : List NewsRecord) :
    (sortedFiltered rows).Pairwise (fun a b => rowLe a b = true) :=
  pairwise_isort rowLe rowLe_total rowLe_trans (escRows rows)

theorem pipeline_mem {q : NewsRecord} {rows : List NewsRecord}
    (h : q ∈ loadPipeline rows) : q ∈ escRows rows :=
  mem_sortedFiltered.mp (mem_of_mem_dropDupLast h)

/-- The surviving row of each title dominates every same-title row of the
escalation-filtered input in the `NaT`-last timestamp order. -/
theorem pipeline_max {q : NewsRecord} {rows : List NewsRecord}
    (h : q ∈ loadPipeline rows) :
    ∀ r ∈ escRows rows, r.newsTitle = q.newsTitle → rowLe r q = true := by
  intro r hr ht
  rcases dropDupLast_split h with ⟨pre, suf, heq, hsuf⟩
  have hrs : r ∈ sortedFiltered rows := mem_sortedFiltered.mpr hr
  have hpw := pairwise_sortedFiltered rows
  rw [heq] at hrs hpw
  rcases List.mem_append.mp hrs with hpre | hqs
  · exact ((List.pairwise_append.mp hpw).2.2 r hpre q (List.mem_cons_self _ _))
  · rcases List.mem_cons.mp hqs with rfl | hs
    · exact pubDateLe_refl _
    · exact absurd ht (hsuf r hs)

/-- Every title of the escalation-filtered input survives into the pipeline
output, and conversely. -/
theorem pipeline_titles (rows : List NewsRecord) (t : String) :
    t ∈ (loadPipeline rows).map (fun r => r.newsTitle) ↔
      t ∈ (escRows rows).map (fun r => r.newsTitle) := by
  rw [loadPipeline, title_mem_dropDupLast]
  constructor
  · rintro hmem
    rcases List.mem_map.mp hmem with ⟨r, hr, ht⟩
    exact List.mem_map.mpr ⟨r, mem_sortedFiltered.mp hr, ht⟩
  · rintro hmem
    rcases List.mem_map.mp hmem with ⟨r, hr, ht⟩
    exact List.mem_map.mpr ⟨r, mem_sortedFiltered.mpr hr, ht⟩

theorem titles_map_toDateRow (l : List NewsRecord) :
    (l.map toDateRow).map (fun r => r.newsTitle) = l.map (fun r => r.newsTitle) := by
  rw [List.map_map]
  rfl

theorem load_data_ok {t : CsvTable} {ld : LoadedData} (h : load_data t = .ok ld) :
    ld = ⟨t.hasCountries, t.hasURL, (loadPipeline t.rows).map toDateRow⟩ := by
  unfold load_data at h
  split at h
  · cases h
  · split at h
    · cases h
    · split at h
      · cases h
      · injection h with h
        exact h.symm

theorem load_data_error_iff (t : CsvTable) :
    (∃ e, load_data t = .error e) ↔
      (t.hasPubDate = false ∨ t.hasEscalation = false ∨ t.hasNewsTitle = false) := by
  unfold load_data
  cases hp : t.hasPubDate <;> cases he : t.hasEscalation <;>
    cases ht : t.hasNewsTitle <;> simp

/-! ## Lemmas about the substring test -/

theorem leadChars_iff (n : List Char) : ∀ (h : List Char),
    leadChars n h = true ↔ ∃ suf, n ++ suf = h := by
  induction n with
  | nil =>
    intro h
    simp [leadChars]
  | cons a as ih =>
    intro h
    cases h with
    | nil =>
      simp [leadChars]
    | cons b hs =>
      simp only [leadChars, Bool.and_eq_true, beq_iff_eq, ih hs]
      constructor
      · rintro ⟨rfl, suf, rfl⟩
        exact ⟨suf, rfl⟩
      · rintro ⟨suf, heq⟩
        injection heq with h1 h2
        exact ⟨h1, suf, h2⟩

theorem subChars_iff (n : List Char) : ∀ (h : List Char),
    subChars n h = true ↔ ∃ pre suf, pre ++ n ++ suf = h := by
  intro h
  induction h with
  | nil =>
    simp only [subChars, decide_eq_true_eq]
    constructor
    · rintro rfl
      exact ⟨[], [], rfl⟩
    · rintro ⟨pre, suf, heq⟩
      rcases List.append_eq_nil.mp heq with ⟨h1, _⟩
      exact (List.append_eq_nil.mp h1).2
  | cons c rest ih =>
    simp only [subChars, Bool.or_eq_true, leadChars_iff, ih]
    constructor
    · rintro (⟨suf, heq⟩ | ⟨pre, suf, heq⟩)
      · exact ⟨[], suf, by simpa using heq⟩
      · exact ⟨c :: pre, suf, by simp [← heq]⟩
    · rintro ⟨pre, suf, heq⟩
      cases pre with
      | nil => exact Or.inl ⟨suf, by simpa using heq⟩
      | cons p ps =>
        injection heq with h1 h2
        exact Or.inr ⟨ps, suf, h2⟩

theorem strContainsCI_iff (hay needle : String) :
    strContainsCI hay needle = true ↔
      ∃ pre suf, pre ++ needle.data.map Char.toLower ++ suf =
        hay.data.map Char.toLower :=
  subChars_iff (needle.data.map Char.toLower) (hay.data.map Char.toLower)

theorem countryMask_iff (country : String) (lo hi : Nat) (r : NewsRecord) :
    countryMask country lo hi r = true ↔
      (∃ s, r.countriesMentioned = some s
        ∧ ∃ pre suf, pre ++ country.data.map Char.toLower ++ suf =
          s.data.map Char.toLower)
      ∧ ∃ x, r.pubDate = some x ∧ lo ≤ x ∧ x ≤ hi := by
  unfold countryMask
  cases hcm : r.countriesMentioned with
  | none => simp
  | some s =>
    cases hpd : r.pubDate with
    | none => simp [dateInRange]
    | some x =>
      simp [dateInRange, strContainsCI_iff, and_assoc]

/-! ## Lemmas about pagination arithmetic -/

theorem paginate_length (l : List NewsRecord) (p : Nat) :
    (paginate l p).length =
      min items_per_page (l.length - (p - 1) * items_per_page) := by
  simp [paginate, List.length_take, List.length_drop]

theorem total_pages_bound {n p : Nat} (h1 : 1 ≤ p) (h2 : p ≤ total_pages n) :
    (p - 1) * items_per_page < n := by
  have h3 : p * items_per_page ≤ n + items_per_page - 1 :=
    (Nat.le_div_iff_mul_le (by simp [items_per_page])).mp h2
  simp only [items_per_page] at *
  omega

/-! ## Lemmas about the aggregation output -/

theorem prepare_ok {d : LoadedData} {dr : Nat × Nat} {out : List (String × Nat)}
    (h : prepare_choropleth_data d dr = .ok out) :
    d.hasCountries = true ∧
      out = value_counts
        ((d.rows.filter (fun r => dateInRange r.pubDate dr.1 dr.2)).map countryKey) := by
  unfold prepare_choropleth_data at h
  split at h
  · rename_i hc
    injection h with h
    exact ⟨by simpa using hc, h.symm⟩
  · cases h

theorem value_counts_keys_perm (xs : List String) :
    ((value_counts xs).map Prod.fst).Perm (firstSeenDistinct xs) := by
  have hperm := (isort_perm countGe
    ((firstSeenDistinct xs).map (fun v => (v, countOcc xs v)))).map Prod.fst
  rw [value_counts]
  rw [List.map_map] at hperm
  have h2 : (Prod.fst ∘ fun v : String => (v, countOcc xs v)) = fun v => v := rfl
  rw [h2] at hperm
  simpa using hperm

theorem value_counts_keys_nodup (xs : List String) :
    ((value_counts xs).map Prod.fst).Nodup :=
  (value_counts_keys_perm xs).nodup_iff.mpr (nodup_firstSeenDistinct xs)

theorem value_counts_mem_keys (xs : List String) (k : String) :
    k ∈ (value_counts xs).map Prod.fst ↔ k ∈ xs := by
  rw [(value_counts_keys_perm xs).mem_iff, mem_firstSeenDistinct]

theorem countGe_total (a b : String × Nat) : countGe a b = true ∨ countGe b a = true := by
  simp only [countGe, decide_eq_true_eq]
  omega

theorem countGe_trans (a b c : String × Nat) (h1 : countGe a b = true)
    (h2 : countGe b c = true) : countGe a c = true := by
  simp only [countGe, decide_eq_true_eq] at *
  omega

theorem value_counts_sorted (xs : List String) :
    (value_counts xs).Pairwise (fun p q => q.2 ≤ p.2) := by
  have := pairwise_isort countGe countGe_total countGe_trans
    ((firstSeenDistinct xs).map (fun v => (v, countOcc xs v)))
  rw [value_counts]
  exact this.imp (fun h => by simpa [countGe] using h)

theorem value_counts_stable (xs : List String) (c : Nat) :
    ((value_counts xs).filter (fun p => p.2 == c)).map Prod.fst =
      (firstSeenDistinct xs).filter (fun v => countOcc xs v == c) := by
  rw [value_counts, filter_isort_countGe]
  rw [List.filter_map, List.map_map]
  have h1 : ((fun p : String × Nat => p.2 == c) ∘ fun v => (v, countOcc xs v)) =
      fun v => countOcc xs v == c := rfl
  have h2 : (Prod.fst ∘ fun v : String => (v, countOcc xs v)) = fun v => v := rfl
  rw [h1, h2]
  simp


/-!
## Claim theorems

Concrete `NewsRecord` literals below use the anonymous constructor
`⟨newsTitle, pubDate, countriesMentioned, url, conflictEscalation⟩`.
-/

/-- Claim C1: for every input table the Loader accepts, the output contains no
two records sharing a title, and every returned record has its escalation flag
set to true (it passed the `Conflict Escalation == True` filter). -/
theorem c1_loader_output_guarantee (t : CsvTable) (ld : LoadedData)
    (h : load_data t = .ok ld) :
    ((ld.rows.map (fun r => r.newsTitle)).Nodup) ∧
      ∀ r ∈ ld.rows, r.conflictEscalation = true := by
  have hld := load_data_ok h
  subst hld
  refine ⟨?_, ?_⟩
  · rw [titles_map_toDateRow]
    exact nodup_titles_dropDupLast (sortedFiltered t.rows)
  · intro r hr
    rcases List.mem_map.mp hr with ⟨q, hq, rfl⟩
    have hesc := (mem_escRows.mp (pipeline_mem hq)).2
    simpa [toDateRow] using hesc

/-- Witness for claim C1 at a concrete two-row table with a duplicated
title. -/
theorem c1_loader_output_guarantee_witness :
    ((([⟨"A", some 2, some "Y", "u2", true⟩] : List NewsRecord).map
        (fun r => r.newsTitle)).Nodup) ∧
      ∀ r ∈ ([⟨"A", some 2, some "Y", "u2", true⟩] : List NewsRecord),
        r.conflictEscalation = true :=
  c1_loader_output_guarantee
    ⟨true, true, true, true, true,
      [⟨"A", some 86400, some "X", "u1", true⟩,
       ⟨"A", some 172800, some "Y", "u2", true⟩]⟩
    ⟨true, true, [⟨"A", some 2, some "Y", "u2", true⟩]⟩ rfl

/-- Claim C2 counterexample: a null-timestamp row is NOT excluded at the
deduplication step.  On a title group holding one valid-timestamp row and one
`NaT` row, the Loader returns the `NaT` row (it sorts last and `keep='last'`
keeps it), so a record with a null timestamp survives dedup in place of a
same-title record with a valid timestamp — contradicting the claim. -/
theorem c2_null_timestamp_counterexample :
    load_data
      ⟨true, true, true, true, true,
        [⟨"A", some 86400, some "X", "u1", true⟩,
         ⟨"A", none, some "X", "u2", true⟩]⟩ =
      Except.ok ⟨true, true, [⟨"A", none, some "X", "u2", true⟩]⟩ := rfl

/-- Claim C2 amended: rows with unparseable timestamps are retained with a
null timestamp marker and are not excluded at deduplication; they sort after
every valid timestamp, so whenever an escalation-flagged title group has a
null-timestamp row, the record surviving dedup for that title has a null
timestamp, and the title itself is always retained. -/
theorem c2_null_rows_retained_and_win (rows : List NewsRecord)
    (q r : NewsRecord) (hq : q ∈ loadPipeline rows) (hr : r ∈ escRows rows)
    (ht : r.newsTitle = q.newsTitle) (hnone : r.pubDate = none) :
    q.pubDate = none ∧
      r.newsTitle ∈ (loadPipeline rows).map (fun s => s.newsTitle) := by
  refine ⟨?_, ?_⟩
  · have hle := pipeline_max hq r hr ht
    unfold rowLe at hle
    rw [hnone] at hle
    exact pubDateLe_none_left hle
  · exact (pipeline_titles rows r.newsTitle).mpr (List.mem_map.mpr ⟨r, hr, rfl⟩)

/-- Witness for the amended claim C2 on the two-row group of the
counterexample. -/
theorem c2_null_rows_retained_and_win_witness :
    (none : Option Nat) = none ∧
      ("A" : String) ∈ (loadPipeline
        [⟨"A", some 86400, some "X", "u1", true⟩,
         ⟨"A", none, some "X", "u2", true⟩]).map (fun s => s.newsTitle) :=
  c2_null_rows_retained_and_win
    [⟨"A", some 86400, some "X", "u1", true⟩,
     ⟨"A", none, some "X", "u2", true⟩]
    ⟨"A", none, some "X", "u2", true⟩
    ⟨"A", none, some "X", "u2", true⟩
    (by decide) (by decide) rfl rfl

/-- Claim C3 counterexample: on a tie of maximum timestamps the Loader keeps
the LAST occurrence in sorted-by-timestamp order, not the first.  Two rows of
title `"B"` share the timestamp; sorted order is input order; the claim says
the first occurrence (`url = "u1"`) is kept, but the code returns the second
(`url = "u2"`). -/
theorem c3_tie_counterexample :
    load_data
      ⟨true, true, true, true, true,
        [⟨"B", some 86400, some "X", "u1", true⟩,
         ⟨"B", some 86400, some "X", "u2", true⟩]⟩ =
      Except.ok ⟨true, true, [⟨"B", some 1, some "X", "u2", true⟩]⟩ := rfl

/-- Claim C3 amended: for every title group of the escalation-filtered input
the Loader keeps exactly one row (titles are deduplicated but all preserved),
the kept row is maximal in the `NaT`-last timestamp order, and it is the LAST
occurrence of its title in sorted-by-timestamp order — no same-title row
follows it in the sorted sequence. -/
theorem c3_keep_last_of_max (rows : List NewsRecord) :
    ((loadPipeline rows).map (fun r => r.newsTitle)).Nodup
    ∧ (∀ t, t ∈ (escRows rows).map (fun r => r.newsTitle) ↔
        t ∈ (loadPipeline rows).map (fun r => r.newsTitle))
    ∧ ∀ q ∈ loadPipeline rows,
        (∀ r ∈ escRows rows, r.newsTitle = q.newsTitle → rowLe r q = true)
        ∧ ∃ pre suf, sortedFiltered rows = pre ++ q :: suf
            ∧ ∀ r ∈ suf, r.newsTitle ≠ q.newsTitle := by
  refine ⟨?_, ?_, ?_⟩
  · exact nodup_titles_dropDupLast (sortedFiltered rows)
  · intro t
    exact (pipeline_titles rows t).symm
  · intro q hq
    exact ⟨pipeline_max hq, dropDupLast_split hq⟩

/-- Witness for the amended claim C3 on the tied two-row group of the
counterexample. -/
theorem c3_keep_last_of_max_witness :
    ((loadPipeline [⟨"B", some 86400, some "X", "u1", true⟩,
        ⟨"B", some 86400, some "X", "u2", true⟩]).map
          (fun r => r.newsTitle)).Nodup
    ∧ (∀ t, t ∈ (escRows [⟨"B", some 86400, some "X", "u1", true⟩,
        ⟨"B", some 86400, some "X", "u2", true⟩]).map (fun r => r.newsTitle) ↔
        t ∈ (loadPipeline [⟨"B", some 86400, some "X", "u1", true⟩,
        ⟨"B", some 86400, some "X", "u2", true⟩]).map (fun r => r.newsTitle))
    ∧ ∀ q ∈ loadPipeline [⟨"B", some 86400, some "X", "u1", true⟩,
        ⟨"B", some 86400, some "X", "u2", true⟩],
        (∀ r ∈ escRows [⟨"B", some 86400, some "X", "u1", true⟩,
            ⟨"B", some 86400, some "X", "u2", true⟩],
          r.newsTitle = q.newsTitle → rowLe r q = true)
        ∧ ∃ pre suf, sortedFiltered [⟨"B", some 86400, some "X", "u1", true⟩,
            ⟨"B", some 86400, some "X", "u2", true⟩] = pre ++ q :: suf
            ∧ ∀ r ∈ suf, r.newsTitle ≠ q.newsTitle :=
  c3_keep_last_of_max
    [⟨"B", some 86400, some "X", "u1", true⟩,
     ⟨"B", some 86400, some "X", "u2", true⟩]

/-- Claim C4: whenever the Aggregator returns, its output has one entry per
distinct country-string value among the filtered-in records, is sorted by
count descending, and entries with equal counts appear in first-seen
country-string order. -/
theorem c4_aggregator_output_shape (d : LoadedData) (dr : Nat × Nat)
    (out : List (String × Nat))
    (h : prepare_choropleth_data d dr = .ok out) :
    ((out.map Prod.fst).Nodup)
    ∧ (∀ k, k ∈ out.map Prod.fst ↔
        k ∈ (d.rows.filter (fun r => dateInRange r.pubDate dr.1 dr.2)).map countryKey)
    ∧ out.Pairwise (fun p q => q.2 ≤ p.2)
    ∧ ∀ c, (out.filter (fun p => p.2 == c)).map Prod.fst =
        (firstSeenDistinct
          ((d.rows.filter (fun r => dateInRange r.pubDate dr.1 dr.2)).map
            countryKey)).filter
          (fun v => countOcc
            ((d.rows.filter (fun r => dateInRange r.pubDate dr.1 dr.2)).map
              countryKey) v == c) := by
  rcases prepare_ok h with ⟨hc, rfl⟩
  exact ⟨value_counts_keys_nodup _, fun k => value_counts_mem_keys _ k,
    value_counts_sorted _, fun c => value_counts_stable _ c⟩

/-- Witness for claim C4 on three in-range rows with countries
`X`, `X`, `Y`, whose aggregate is `[(X, 2), (Y, 1)]`. -/
theorem c4_aggregator_output_shape_witness :
    ((([("X", 2), ("Y", 1)] : List (String × Nat)).map Prod.fst).Nodup)
    ∧ (∀ k, k ∈ ([("X", 2), ("Y", 1)] : List (String × Nat)).map Prod.fst ↔
        k ∈ ["X", "X", "Y"])
    ∧ ([("X", 2), ("Y", 1)] : List (String × Nat)).Pairwise (fun p q => q.2 ≤ p.2)
    ∧ ∀ c, (([("X", 2), ("Y", 1)] : List (String × Nat)).filter
          (fun p => p.2 == c)).map Prod.fst =
        (firstSeenDistinct ["X", "X", "Y"]).filter
          (fun v => countOcc ["X", "X", "Y"] v == c) :=
  c4_aggregator_output_shape
    ⟨true, true,
      [⟨"T1", some 5, some "X", "u1", true⟩,
       ⟨"T2", some 6, some "X", "u2", true⟩,
       ⟨"T3", some 7, some "Y", "u3", true⟩]⟩
    (0, 10) [("X", 2), ("Y", 1)] rfl

/-- Claim C5: whenever the Aggregator returns, the sum of its counts equals
the number of records whose date lies within the range inclusive (every
filtered-in record — missing countries mapped to `Unknown` included —
contributes exactly one to exactly one count). -/
theorem c5_counts_sum_to_filtered (d : LoadedData) (dr : Nat × Nat)
    (out : List (String × Nat))
    (h : prepare_choropleth_data d dr = .ok out) :
    (out.map (fun p => p.2)).sum =
      (d.rows.filter (fun r => dateInRange r.pubDate dr.1 dr.2)).length := by
  rcases prepare_ok h with ⟨hc, rfl⟩
  rw [sum_value_counts, List.length_map]

/-- Witness for claim C5: the counts `2 + 1` sum to the `3` filtered-in rows,
one of which has a missing country cell counted under `Unknown`. -/
theorem c5_counts_sum_to_filtered_witness :
    (([("X", 2), ("Unknown", 1)] : List (String × Nat)).map
        (fun p => p.2)).sum =
      ([⟨"T1", some 5, some "X", "u1", true⟩,
        ⟨"T2", some 6, some "X", "u2", true⟩,
        ⟨"T3", some 7, none, "u3", true⟩] : List NewsRecord).length :=
  c5_counts_sum_to_filtered
    ⟨true, true,
      [⟨"T1", some 5, some "X", "u1", true⟩,
       ⟨"T2", some 6, some "X", "u2", true⟩,
       ⟨"T3", some 7, none, "u3", true⟩]⟩
    (0, 10) [("X", 2), ("Unknown", 1)] rfl

/-- Claim C6: the country-news mask selects exactly the records whose
`countriesMentioned` field contains the country string as a case-insensitive
substring and whose date lies within the range inclusive; in particular
country `"fran"` matches a field `"France"`. -/
theorem c6_country_filter_characterisation :
    (∀ (rows : List NewsRecord) (country : String) (lo hi : Nat)
        (r : NewsRecord),
      r ∈ country_news rows country lo hi ↔
        r ∈ rows
        ∧ (∃ s, r.countriesMentioned = some s
            ∧ ∃ pre suf, pre ++ country.data.map Char.toLower ++ suf =
              s.data.map Char.toLower)
        ∧ ∃ x, r.pubDate = some x ∧ lo ≤ x ∧ x ≤ hi)
    ∧ strContainsCI "France" "fran" = true := by
  refine ⟨?_, by decide⟩
  intro rows country lo hi r
  unfold country_news
  rw [List.mem_filter, countryMask_iff]

/-- Claim C7 counterexample: on a reversed range (start `5` > end `3`) the
Aggregator does not fail with any `EmptyRangeError`-like error — it returns
normally with an empty aggregate, contradicting the claim. -/
theorem c7_reversed_range_counterexample :
    prepare_choropleth_data
      ⟨true, true, [⟨"A", some 10, some "X", "u", true⟩]⟩ (5, 3) =
      Except.ok [] := rfl

/-- Claim C7 amended: the Aggregator has no range guard and never raises an
empty-range error.  When the country column is present it returns normally
for every range — with an empty aggregate whenever start > end — and it
fails (with the column `ValueError`) exactly when that column is absent. -/
theorem c7_no_empty_range_error (d : LoadedData) (lo hi : Nat) :
    (d.hasCountries = true →
      ∃ out, prepare_choropleth_data d (lo, hi) = Except.ok out
        ∧ (hi < lo → out = []))
    ∧ (d.hasCountries = false →
      ∃ msg, prepare_choropleth_data d (lo, hi) =
        Except.error (PdError.valueError msg)) := by
  constructor
  · intro hc
    refine ⟨value_counts
      ((d.rows.filter (fun r => dateInRange r.pubDate lo hi)).map countryKey),
      ?_, ?_⟩
    · simp [prepare_choropleth_data, hc]
    · intro hlt
      have hnil : d.rows.filter (fun r => dateInRange r.pubDate lo hi) = [] := by
        rw [List.filter_eq_nil_iff]
        intro r _
        cases hp : r.pubDate with
        | none => simp [dateInRange]
        | some x =>
          simp only [dateInRange, Bool.and_eq_true, decide_eq_true_eq, not_and]
          omega
      rw [hnil]
      rfl
  · intro hc
    refine ⟨"'Countries Mentioned' column not found in the dataset", ?_⟩
    simp [prepare_choropleth_data, hc]

/-- Witness for the amended claim C7 at the reversed range `(5, 3)`. -/
theorem c7_no_empty_range_error_witness :
    ((true : Bool) = true →
      ∃ out, prepare_choropleth_data
        ⟨true, true, [⟨"A", some 10, some "X", "u", true⟩]⟩ (5, 3) =
          Except.ok out ∧ (3 < 5 → out = []))
    ∧ ((true : Bool) = false →
      ∃ msg, prepare_choropleth_data
        ⟨true, true, [⟨"A", some 10, some "X", "u", true⟩]⟩ (5, 3) =
          Except.error (PdError.valueError msg)) :=
  c7_no_empty_range_error
    ⟨true, true, [⟨"A", some 10, some "X", "u", true⟩]⟩ 5 3

/-- Claim C8 counterexample: with the `URL` column absent (and all other
columns present) loading succeeds and returns a record set — contradicting
the claim that loading fails whenever any of the five required columns is
absent.  The `CsvTable` flags are
`⟨hasPubDate, hasNewsTitle, hasCountries, hasURL, hasEscalation, rows⟩`. -/
theorem c8_missing_url_counterexample :
    load_data
      ⟨true, true, true, false, true,
        [⟨"A", some 86400, some "X", "u", true⟩]⟩ =
      Except.ok ⟨true, false, [⟨"A", some 1, some "X", "u", true⟩]⟩ := rfl

/-- Claim C8 amended: loading fails (with a `KeyError`) exactly when the
timestamp, escalation-indicator, or title column is absent; a missing
country-mentions column does not fail loading but makes the Aggregator fail
with its `ValueError`, and a missing url column causes no failure in loading
at all. -/
theorem c8_missing_column_behaviour (t : CsvTable) :
    ((∃ e, load_data t = .error e) ↔
      (t.hasPubDate = false ∨ t.hasEscalation = false ∨
        t.hasNewsTitle = false))
    ∧ (∀ ld, load_data t = .ok ld → ld.hasCountries = false →
        ∀ dr, ∃ msg, prepare_choropleth_data ld dr =
          Except.error (PdError.valueError msg)) := by
  refine ⟨load_data_error_iff t, ?_⟩
  intro ld hok hc dr
  refine ⟨"'Countries Mentioned' column not found in the dataset", ?_⟩
  simp [prepare_choropleth_data, hc]

/-- Witness for the amended claim C8 at a table whose timestamp column is
absent. -/
theorem c8_missing_column_behaviour_witness :
    ((∃ e, load_data (⟨false, true, true, true, true, []⟩ : CsvTable) =
        .error e) ↔
      ((false : Bool) = false ∨ (true : Bool) = false ∨
        (true : Bool) = false))
    ∧ (∀ ld, load_data (⟨false, true, true, true, true, []⟩ : CsvTable) =
          .ok ld → ld.hasCountries = false →
        ∀ dr, ∃ msg, prepare_choropleth_data ld dr =
          Except.error (PdError.valueError msg)) :=
  c8_missing_column_behaviour ⟨false, true, true, true, true, []⟩

/-- Claim C9: pagination uses fixed page size 10 with 1-indexed page numbers
and a possibly partial (but never empty) last page; in particular 23 matching
records give 3 pages with exactly 3 records on page 3. -/
theorem c9_pagination_shape (l : List NewsRecord) (p : Nat) (h1 : 1 ≤ p)
    (h2 : p ≤ total_pages l.length) :
    (paginate l p).length =
        min items_per_page (l.length - (p - 1) * items_per_page)
    ∧ 0 < (paginate l p).length
    ∧ (l.length = 23 →
        total_pages l.length = 3 ∧ (paginate l 3).length = 3) := by
  have hlen := paginate_length l p
  have hbound := total_pages_bound h1 h2
  refine ⟨hlen, ?_, ?_⟩
  · rw [hlen]
    simp only [items_per_page] at *
    omega
  · intro h23
    refine ⟨by rw [h23]; decide, ?_⟩
    rw [paginate_length l 3, h23]
    rfl

/-- Witness for claim C9 on a 23-record list at page 3. -/
theorem c9_pagination_shape_witness :
    (paginate (List.replicate 23 ⟨"A", none, none, "u", false⟩) 3).length =
        min items_per_page
          ((List.replicate 23
            (⟨"A", none, none, "u", false⟩ : NewsRecord)).length -
              (3 - 1) * items_per_page)
    ∧ 0 < (paginate (List.replicate 23 ⟨"A", none, none, "u", false⟩) 3).length
    ∧ ((List.replicate 23
          (⟨"A", none, none, "u", false⟩ : NewsRecord)).length = 23 →
        total_pages (List.replicate 23
          (⟨"A", none, none, "u", false⟩ : NewsRecord)).length = 3
        ∧ (paginate (List.replicate 23
            ⟨"A", none, none, "u", false⟩) 3).length = 3) :=
  c9_pagination_shape (List.replicate 23 ⟨"A", none, none, "u", false⟩) 3
    (by decide) (by decide)

/-- Claim C10: with zero matching records the computed total page count is 0,
so the page selector is constructed with maximum page 0 strictly below its
minimum page 1 and is not well-formed. -/
theorem c10_zero_matches_page_control (rows : List NewsRecord)
    (country : String) (lo hi : Nat)
    (h : country_news rows country lo hi = []) :
    total_pages (country_news rows country lo hi).length = 0
    ∧ ¬ pageControlOk (total_pages
        (country_news rows country lo hi).length) := by
  rw [h]
  exact ⟨rfl, by simp [pageControlOk, total_pages, items_per_page]⟩

/-- Witness for claim C10 on an empty record set. -/
theorem c10_zero_matches_page_control_witness :
    total_pages (country_news [] "France" 0 0).length = 0
    ∧ ¬ pageControlOk (total_pages (country_news [] "France" 0 0).length) :=
  c10_zero_matches_page_control [] "France" 0 0 rfl
